import Mathlib

/-!
Shallow embedding of the server backup script (src/main.py).

The script archives configured directories, dumps configured MySQL
databases, fingerprints each produced file with a streaming hash,
compares the fingerprint with the one stored in a MySQL ledger table
(tbl_backup), uploads changed artifacts to Google Drive, records the new
fingerprint, and removes the local temporary file.

External effects (filesystem checks, the archiver, mysqldump, the ledger
database, the Drive API) are modelled by explicit environment flags and
by explicit state: the set of local temporary files on disk, the ledger
table, the log of performed uploads, and the sequence of per-artifact
outcomes the script logs.
-/

abbrev Bytes := List Nat

abbrev Hash := String

/-- The ledger table tbl_backup: rows of (name, hash), name being the key. -/
abbrev Ledger := List (String × Hash)

/-- Embeds get_previous_hash: SELECT hash FROM tbl_backup WHERE name=%s,
fetchone, returning the hash of the first matching row or none. -/
def get_previous_hash : Ledger → String → Option Hash
  | [], _ => none
  | (k, v) :: rest, n => if k = n then some v else get_previous_hash rest n

/-- Embeds update_hash: INSERT INTO tbl_backup(name, hash) VALUES(%s, %s)
ON DUPLICATE KEY UPDATE hash=VALUES(hash) — an upsert keyed by name. -/
def update_hash : Ledger → String → Hash → Ledger
  | [], n, h => [(n, h)]
  | (k, v) :: rest, n, h =>
      if k = n then (k, h) :: rest else (k, v) :: update_hash rest n h

/-- Embeds os.path.basename: the part of the path after the last slash. -/
def basename (p : String) : String :=
  String.mk (p.toList.foldl (fun acc c => if c = '/' then [] else acc ++ [c]) [])

/-- One entry of the configured directories list: name and path fields. -/
structure DirSpec where
  name : String
  path : String
deriving DecidableEq

/-- One entry of the configured databases list. -/
structure DbSpec where
  db : String
deriving DecidableEq

/-- logical_name as built in backup_directories. -/
def logicalNameOf (d : DirSpec) : String :=
  d.name ++ "_" ++ basename d.path

/-- zip_name as built in backup_directories. -/
def zipNameOf (d : DirSpec) : String :=
  logicalNameOf d ++ ".zip"

/-- dump_file as built in backup_databases. -/
def dumpNameOf (b : DbSpec) : String :=
  b.db ++ ".sql"

/-- Per-artifact outcome, as visible in the log lines the script emits. -/
inductive Outcome where
  | uploaded
  | skippedUnchanged
  | sourceMissing
  | failedDump
deriving DecidableEq

/-- Kinds of Python exceptions the script can raise while handling one
artifact: archiver failure, file-read failure in compute_hash, pymysql
connectivity failure, Drive API failure. -/
inductive Err where
  | producerError
  | hashError
  | storeUnavailable
  | sinkError
deriving DecidableEq

/-- Observable state threaded through a run: local temporary files on
disk, the ledger table, the log of uploads performed, and the recorded
per-artifact outcomes. -/
structure St where
  disk : List String
  ledger : Ledger
  uploads : List String
  trace : List (String × Outcome)
deriving DecidableEq

/-- State at the beginning of a run: no temporary files, a given ledger
content, nothing uploaded, nothing recorded. -/
def St.start (led : Ledger) : St :=
  { disk := [], ledger := led, uploads := [], trace := [] }

/-- Result of processing one spec: the loop body either finishes (and the
loop continues) or a Python exception propagates out of the loop. -/
inductive StepRes where
  | ok : St → StepRes
  | raised : Err → St → StepRes
deriving DecidableEq

def StepRes.state : StepRes → St
  | StepRes.ok st => st
  | StepRes.raised _ st => st

/-- External-world behavior for one directory spec: whether the source
path is a directory, whether make_archive succeeds, the bytes of the
produced archive, and whether the hash read, ledger read, Drive upload
and ledger write succeed. -/
structure DirEnv where
  isdir : Bool
  produceOk : Bool
  content : Bytes
  hashOk : Bool
  getOk : Bool
  uploadOk : Bool
  putOk : Bool
deriving DecidableEq

/-- External-world behavior for one database spec: whether mysqldump
exits zero, the bytes of the dump, and the same per-call flags. -/
structure DbEnv where
  dumpOk : Bool
  content : Bytes
  hashOk : Bool
  getOk : Bool
  uploadOk : Bool
  putOk : Bool
deriving DecidableEq

def DirEnv.allOk (e : DirEnv) : Prop :=
  e.isdir = true ∧ e.produceOk = true ∧ e.hashOk = true ∧
  e.getOk = true ∧ e.uploadOk = true ∧ e.putOk = true

def DbEnv.allOk (f : DbEnv) : Prop :=
  f.dumpOk = true ∧ f.hashOk = true ∧ f.getOk = true ∧
  f.uploadOk = true ∧ f.putOk = true

instance (e : DirEnv) : Decidable e.allOk := by
  unfold DirEnv.allOk; infer_instance

instance (f : DbEnv) : Decidable f.allOk := by
  unfold DbEnv.allOk; infer_instance

/-- One iteration of the loop in backup_directories (src/main.py lines
136 to 158), for one configured directory. The hash function hf stands
for compute_hash applied to the produced archive bytes. Every leaf
records the exact state at that exit: a raised exception skips the
os.remove call, so the archive stays on disk. -/
def dirStep (hf : Bytes → Hash) (d : DirSpec) (e : DirEnv) (st : St) : StepRes :=
  if e.isdir = false then
    StepRes.ok { st with trace := st.trace ++ [(logicalNameOf d, Outcome.sourceMissing)] }
  else if e.produceOk = false then
    StepRes.raised Err.producerError st
  else if e.hashOk = false then
    StepRes.raised Err.hashError { st with disk := st.disk ++ [zipNameOf d] }
  else if e.getOk = false then
    StepRes.raised Err.storeUnavailable { st with disk := st.disk ++ [zipNameOf d] }
  else if some (hf e.content) ≠ get_previous_hash st.ledger (logicalNameOf d) then
    if e.uploadOk = false then
      StepRes.raised Err.sinkError { st with disk := st.disk ++ [zipNameOf d] }
    else if e.putOk = false then
      StepRes.raised Err.storeUnavailable
        { st with disk := st.disk ++ [zipNameOf d],
                  uploads := st.uploads ++ [zipNameOf d] }
    else
      StepRes.ok
        { st with disk := (st.disk ++ [zipNameOf d]).erase (zipNameOf d),
                  ledger := update_hash st.ledger (logicalNameOf d) (hf e.content),
                  uploads := st.uploads ++ [zipNameOf d],
                  trace := st.trace ++ [(logicalNameOf d, Outcome.uploaded)] }
  else
    StepRes.ok
      { st with disk := (st.disk ++ [zipNameOf d]).erase (zipNameOf d),
                trace := st.trace ++ [(logicalNameOf d, Outcome.skippedUnchanged)] }

/-- One iteration of the loop in backup_databases (src/main.py lines 163
to 206). Note that open(dump_file, wb) creates the dump file before
mysqldump runs, and the except branch for a failed dump continues the
loop without removing it; likewise a raised exception later in the body
skips the os.remove call. -/
def dbStep (hf : Bytes → Hash) (b : DbSpec) (f : DbEnv) (st : St) : StepRes :=
  if f.dumpOk = false then
    StepRes.ok
      { st with disk := st.disk ++ [dumpNameOf b],
                trace := st.trace ++ [(b.db, Outcome.failedDump)] }
  else if f.hashOk = false then
    StepRes.raised Err.hashError { st with disk := st.disk ++ [dumpNameOf b] }
  else if f.getOk = false then
    StepRes.raised Err.storeUnavailable { st with disk := st.disk ++ [dumpNameOf b] }
  else if some (hf f.content) ≠ get_previous_hash st.ledger b.db then
    if f.uploadOk = false then
      StepRes.raised Err.sinkError { st with disk := st.disk ++ [dumpNameOf b] }
    else if f.putOk = false then
      StepRes.raised Err.storeUnavailable
        { st with disk := st.disk ++ [dumpNameOf b],
                  uploads := st.uploads ++ [dumpNameOf b] }
    else
      StepRes.ok
        { st with disk := (st.disk ++ [dumpNameOf b]).erase (dumpNameOf b),
                  ledger := update_hash st.ledger b.db (hf f.content),
                  uploads := st.uploads ++ [dumpNameOf b],
                  trace := st.trace ++ [(b.db, Outcome.uploaded)] }
  else
    StepRes.ok
      { st with disk := (st.disk ++ [dumpNameOf b]).erase (dumpNameOf b),
                trace := st.trace ++ [(b.db, Outcome.skippedUnchanged)] }

/-- Result of one of the two backup loops, or of the whole run body. -/
inductive RunRes where
  | ok : St → RunRes
  | raised : Err → St → RunRes
deriving DecidableEq

def RunRes.state : RunRes → St
  | RunRes.ok st => st
  | RunRes.raised _ st => st

/-- The loop of backup_directories over the configured directories; an
exception raised by the body propagates and ends the loop. -/
def backup_directories (hf : Bytes → Hash) :
    List (DirSpec × DirEnv) → St → RunRes
  | [], st => RunRes.ok st
  | p :: rest, st =>
    match dirStep hf p.1 p.2 st with
    | StepRes.ok st1 => backup_directories hf rest st1
    | StepRes.raised err st1 => RunRes.raised err st1

/-- The loop of backup_databases over the configured databases. -/
def backup_databases (hf : Bytes → Hash) :
    List (DbSpec × DbEnv) → St → RunRes
  | [], st => RunRes.ok st
  | p :: rest, st =>
    match dbStep hf p.1 p.2 st with
    | StepRes.ok st1 => backup_databases hf rest st1
    | StepRes.raised err st1 => RunRes.raised err st1

/-- Whole-process environment: whether loading config.json succeeds at
module import, whether get_drive_service and the dated-folder creation
succeed inside main, the configured specs with their worlds, and the
ledger content at the start of the run. -/
structure MainEnv where
  configOk : Bool
  authOk : Bool
  folderOk : Bool
  dirs : List (DirSpec × DirEnv)
  dbs : List (DbSpec × DbEnv)
  ledger0 : Ledger
deriving DecidableEq

/-- Embeds the process entry (src/main.py lines 26 to 37 and 209 to 226):
a config-load failure re-raises at import time and the interpreter exits
1; inside main every exception is caught by the bare except, logged, and
main returns normally, so the process exits 0. Named runMain because the
name main is reserved by Lean. Returns the exit code and the final
observable state. -/
def runMain (hf : Bytes → Hash) (env : MainEnv) : Nat × St :=
  if env.configOk = false then
    (1, St.start env.ledger0)
  else if env.authOk = false then
    (0, St.start env.ledger0)
  else if env.folderOk = false then
    (0, St.start env.ledger0)
  else
    match backup_directories hf env.dirs (St.start env.ledger0) with
    | RunRes.raised _ st1 => (0, st1)
    | RunRes.ok st1 =>
      match backup_databases hf env.dbs st1 with
      | RunRes.raised _ st2 => (0, st2)
      | RunRes.ok st2 => (0, st2)

/-- The chunking done by compute_hash: iter(lambda: f.read(8192), b"")
yields successive slices of at most 8192 bytes until the file ends. -/
def chunksOf8192 : Bytes → List Bytes
  | [] => []
  | b :: rest => ((b :: rest).take 8192) :: chunksOf8192 ((b :: rest).drop 8192)
  termination_by l => l.length
  decreasing_by simp [List.length_drop]; omega

/-- A local file as the fingerprinting code can observe it: compute_hash
opens the path and reads bytes only; the name and the modification time
are carried here to state independence from them. -/
structure File where
  name : String
  mtime : Nat
  content : Bytes
deriving DecidableEq

/-- Interface of the streaming hash object (xxhash.xxh64): a fold state,
an update step fed one chunk, and a final digest. -/
structure Hasher (σ : Type) where
  init : σ
  update : σ → Bytes → σ
  digest : σ → Hash

/-- Embeds compute_hash (src/main.py lines 49 to 55): fold the chunks of
the file bytes through the streaming hash and take the digest. -/
def compute_hash {σ : Type} (H : Hasher σ) (f : File) : Hash :=
  H.digest ((chunksOf8192 f.content).foldl H.update H.init)

/-- One object stored on Drive, as far as upload_to_drive observes it. -/
structure DriveFile where
  id : Nat
  name : String
  parent : String
  content : Bytes
  trashed : Bool
deriving DecidableEq

/-- The remote store: its objects plus a counter supplying fresh ids. -/
structure Drive where
  files : List DriveFile
  nextId : Nat
deriving DecidableEq

/-- Embeds the files().list query of upload_to_drive: objects with the
given name, inside the given folder, not trashed. -/
def driveQuery (dv : Drive) (filename folderId : String) : List DriveFile :=
  dv.files.filter (fun g => g.name == filename && g.parent == folderId && g.trashed == false)

/-- Embeds upload_to_drive (src/main.py lines 118 to 131): look up an
existing object by the file name inside the folder; if one is found,
update the content of files[0] keeping its id; otherwise create a new
object in the folder. Returns the id of the touched object and the new
remote state. -/
def upload_to_drive (localPath folderId : String) (c : Bytes) (dv : Drive) : Nat × Drive :=
  match driveQuery dv (basename localPath) folderId with
  | g :: _ =>
    (g.id,
      { dv with
        files := dv.files.map (fun x => if x.id == g.id then { x with content := c } else x) })
  | [] =>
    (dv.nextId,
      { files := dv.files ++
          [{ id := dv.nextId, name := basename localPath, parent := folderId,
             content := c, trashed := false }],
        nextId := dv.nextId + 1 })

/-- Number of artifacts recorded as failed in a trace. -/
def countFailed : List (String × Outcome) → Nat
  | [] => 0
  | p :: rest => (if p.snd = Outcome.failedDump then 1 else 0) + countFailed rest

/-- A concrete stand-in for compute_hash used by the closed examples:
the decimal representation of the byte sum. -/
def hfTest : Bytes → Hash :=
  fun bs => Nat.repr (bs.foldl (fun a b => a + b) 0)

def dX : DirSpec := { name := "web", path := "/srv/web" }

def eOk : DirEnv :=
  { isdir := true, produceOk := true, content := [1, 2, 3],
    hashOk := true, getOk := true, uploadOk := true, putOk := true }

def eNoUpload : DirEnv := { eOk with uploadOk := false }

def b1X : DbSpec := { db := "db1" }

def b2X : DbSpec := { db := "db2" }

def b3X : DbSpec := { db := "db3" }

def fOk : DbEnv :=
  { dumpOk := true, content := [4, 5], hashOk := true,
    getOk := true, uploadOk := true, putOk := true }

def fNoDump : DbEnv := { fOk with dumpOk := false }

def fNoUpload : DbEnv := { fOk with uploadOk := false }

def fNoGet : DbEnv := { fOk with getOk := false }

/-- Key of a directory spec paired with its world. -/
def dirKey (p : DirSpec × DirEnv) : String := logicalNameOf p.1

/-- Key of a database spec paired with its world. -/
def dbKey (p : DbSpec × DbEnv) : String := p.1.db

lemma gph_update_self (t : Ledger) (n : String) (h : Hash) :
    get_previous_hash (update_hash t n h) n = some h := by
  induction t with
  | nil => simp [update_hash, get_previous_hash]
  | cons p rest ih =>
    obtain ⟨k, v⟩ := p
    by_cases hk : k = n
    · simp [update_hash, hk, get_previous_hash]
    · simp [update_hash, hk, get_previous_hash, ih]

lemma gph_update_other (t : Ledger) (n m : String) (h : Hash) (hmn : m ≠ n) :
    get_previous_hash (update_hash t n h) m = get_previous_hash t m := by
  induction t with
  | nil => simp [update_hash, get_previous_hash, Ne.symm hmn]
  | cons p rest ih =>
    obtain ⟨k, v⟩ := p
    by_cases hk : k = n
    · subst hk
      simp [update_hash, get_previous_hash, Ne.symm hmn]
    · simp [update_hash, hk, get_previous_hash, ih]

lemma gph_none_of_not_mem (t : Ledger) (n : String) (h : n ∉ t.map Prod.fst) :
    get_previous_hash t n = none := by
  induction t with
  | nil => rfl
  | cons p rest ih =>
    obtain ⟨k, v⟩ := p
    rw [List.map_cons, List.mem_cons] at h
    push_neg at h
    obtain ⟨h1, h2⟩ := h
    simp [get_previous_hash, Ne.symm h1, ih h2]

lemma update_hash_filter_frame (t : Ledger) (n : String) (h : Hash) :
    (update_hash t n h).filter (fun p => p.fst != n) =
      t.filter (fun p => p.fst != n) := by
  induction t with
  | nil => simp [update_hash]
  | cons p rest ih =>
    obtain ⟨k, v⟩ := p
    by_cases hk : k = n
    · simp [update_hash, hk, List.filter_cons]
    · simp [update_hash, hk, List.filter_cons, ih]

lemma erase_append_singleton (l : List String) (a : String) (h : a ∉ l) :
    (l ++ [a]).erase a = l := by
  induction l with
  | nil => simp
  | cons x xs ih =>
    simp at h
    obtain ⟨h1, h2⟩ := h
    simp [List.erase_cons, Ne.symm h1, ih h2]

lemma dirStep_skip (hf : Bytes → Hash) (d : DirSpec) (e : DirEnv) (st : St)
    (hok : e.allOk)
    (heq : some (hf e.content) = get_previous_hash st.ledger (logicalNameOf d)) :
    dirStep hf d e st = StepRes.ok
      { st with disk := (st.disk ++ [zipNameOf d]).erase (zipNameOf d),
                trace := st.trace ++ [(logicalNameOf d, Outcome.skippedUnchanged)] } := by
  obtain ⟨h1, h2, h3, h4, h5, h6⟩ := hok
  simp [dirStep, h1, h2, h3, h4, heq]

lemma dirStep_upload (hf : Bytes → Hash) (d : DirSpec) (e : DirEnv) (st : St)
    (hok : e.allOk)
    (hne : some (hf e.content) ≠ get_previous_hash st.ledger (logicalNameOf d)) :
    dirStep hf d e st = StepRes.ok
      { st with disk := (st.disk ++ [zipNameOf d]).erase (zipNameOf d),
                ledger := update_hash st.ledger (logicalNameOf d) (hf e.content),
                uploads := st.uploads ++ [zipNameOf d],
                trace := st.trace ++ [(logicalNameOf d, Outcome.uploaded)] } := by
  obtain ⟨h1, h2, h3, h4, h5, h6⟩ := hok
  simp [dirStep, h1, h2, h3, h4, h5, h6, hne]

lemma dbStep_skip (hf : Bytes → Hash) (b : DbSpec) (f : DbEnv) (st : St)
    (hok : f.allOk)
    (heq : some (hf f.content) = get_previous_hash st.ledger b.db) :
    dbStep hf b f st = StepRes.ok
      { st with disk := (st.disk ++ [dumpNameOf b]).erase (dumpNameOf b),
                trace := st.trace ++ [(b.db, Outcome.skippedUnchanged)] } := by
  obtain ⟨h1, h2, h3, h4, h5⟩ := hok
  simp [dbStep, h1, h2, h3, heq]

lemma dbStep_upload (hf : Bytes → Hash) (b : DbSpec) (f : DbEnv) (st : St)
    (hok : f.allOk)
    (hne : some (hf f.content) ≠ get_previous_hash st.ledger b.db) :
    dbStep hf b f st = StepRes.ok
      { st with disk := (st.disk ++ [dumpNameOf b]).erase (dumpNameOf b),
                ledger := update_hash st.ledger b.db (hf f.content),
                uploads := st.uploads ++ [dumpNameOf b],
                trace := st.trace ++ [(b.db, Outcome.uploaded)] } := by
  obtain ⟨h1, h2, h3, h4, h5⟩ := hok
  simp [dbStep, h1, h2, h3, h4, h5, hne]

lemma dbStep_completes (hf : Bytes → Hash) (b : DbSpec) (f : DbEnv) (st : St)
    (hok : f.allOk) :
    ∃ st1 o, dbStep hf b f st = StepRes.ok st1 ∧
      st1.trace = st.trace ++ [(b.db, o)] ∧
      (o = Outcome.uploaded ∨ o = Outcome.skippedUnchanged) := by
  by_cases hc : some (hf f.content) = get_previous_hash st.ledger b.db
  · exact ⟨_, Outcome.skippedUnchanged, dbStep_skip hf b f st hok hc, rfl, Or.inr rfl⟩
  · exact ⟨_, Outcome.uploaded, dbStep_upload hf b f st hok hc, rfl, Or.inl rfl⟩

lemma backup_directories_establish (hf : Bytes → Hash) (l : List (DirSpec × DirEnv)) :
    ∀ st : St, (∀ p ∈ l, DirEnv.allOk p.2) → (l.map dirKey).Nodup →
    ∃ st1, backup_directories hf l st = RunRes.ok st1 ∧
      (∀ p ∈ l, get_previous_hash st1.ledger (dirKey p) = some (hf p.2.content)) ∧
      (∀ n, n ∉ l.map dirKey →
        get_previous_hash st1.ledger n = get_previous_hash st.ledger n) := by
  induction l with
  | nil =>
    intro st _ _
    exact ⟨st, rfl, by simp, fun n _ => rfl⟩
  | cons p rest ih =>
    intro st hok hnd
    have hokp : DirEnv.allOk p.2 := hok p (by simp)
    have hokr : ∀ q ∈ rest, DirEnv.allOk q.2 := fun q hq => hok q (by simp [hq])
    rw [List.map_cons, List.nodup_cons] at hnd
    obtain ⟨hkey, hnd2⟩ := hnd
    by_cases hc : some (hf p.2.content) = get_previous_hash st.ledger (dirKey p)
    · have hstep := dirStep_skip hf p.1 p.2 st hokp hc
      obtain ⟨st1, hrun, hall, hframe⟩ := ih
        { st with disk := (st.disk ++ [zipNameOf p.1]).erase (zipNameOf p.1),
                  trace := st.trace ++ [(logicalNameOf p.1, Outcome.skippedUnchanged)] }
        hokr hnd2
      refine ⟨st1, ?_, ?_, ?_⟩
      · simp [backup_directories, hstep, hrun]
      · intro q hq
        rcases List.mem_cons.mp hq with hq1 | hq2
        · subst hq1
          rw [hframe (dirKey q) hkey]
          exact hc.symm
        · exact hall q hq2
      · intro n hn
        rw [List.map_cons, List.mem_cons] at hn
        push_neg at hn
        obtain ⟨_, hn2⟩ := hn
        rw [hframe n hn2]
    · have hstep := dirStep_upload hf p.1 p.2 st hokp hc
      obtain ⟨st1, hrun, hall, hframe⟩ := ih
        { st with disk := (st.disk ++ [zipNameOf p.1]).erase (zipNameOf p.1),
                  ledger := update_hash st.ledger (logicalNameOf p.1) (hf p.2.content),
                  uploads := st.uploads ++ [zipNameOf p.1],
                  trace := st.trace ++ [(logicalNameOf p.1, Outcome.uploaded)] }
        hokr hnd2
      refine ⟨st1, ?_, ?_, ?_⟩
      · simp [backup_directories, hstep, hrun]
      · intro q hq
        rcases List.mem_cons.mp hq with hq1 | hq2
        · subst hq1
          rw [hframe (dirKey q) hkey]
          exact gph_update_self st.ledger (logicalNameOf q.1) (hf q.2.content)
        · exact hall q hq2
      · intro n hn
        rw [List.map_cons, List.mem_cons] at hn
        push_neg at hn
        obtain ⟨hn1, hn2⟩ := hn
        rw [hframe n hn2]
        exact gph_update_other st.ledger (logicalNameOf p.1) n (hf p.2.content) hn1

lemma backup_directories_rerun (hf : Bytes → Hash) (l : List (DirSpec × DirEnv)) :
    ∀ st : St, (∀ p ∈ l, DirEnv.allOk p.2) →
    (∀ p ∈ l, get_previous_hash st.ledger (dirKey p) = some (hf p.2.content)) →
    ∃ st2, backup_directories hf l st = RunRes.ok st2 ∧
      st2.ledger = st.ledger ∧ st2.uploads = st.uploads ∧
      st2.trace = st.trace ++ l.map (fun p => (dirKey p, Outcome.skippedUnchanged)) := by
  induction l with
  | nil =>
    intro st _ _
    exact ⟨st, rfl, rfl, rfl, by simp⟩
  | cons p rest ih =>
    intro st hok hprev
    have hstep := dirStep_skip hf p.1 p.2 st (hok p (by simp)) (hprev p (by simp)).symm
    obtain ⟨st2, hrun, hl, hu, ht⟩ := ih
      { st with disk := (st.disk ++ [zipNameOf p.1]).erase (zipNameOf p.1),
                trace := st.trace ++ [(logicalNameOf p.1, Outcome.skippedUnchanged)] }
      (fun q hq => hok q (by simp [hq]))
      (fun q hq => hprev q (by simp [hq]))
    refine ⟨st2, ?_, hl, hu, ?_⟩
    · simp [backup_directories, hstep, hrun]
    · rw [ht]
      simp [dirKey]

lemma backup_databases_establish (hf : Bytes → Hash) (l : List (DbSpec × DbEnv)) :
    ∀ st : St, (∀ p ∈ l, DbEnv.allOk p.2) → (l.map dbKey).Nodup →
    ∃ st1, backup_databases hf l st = RunRes.ok st1 ∧
      (∀ p ∈ l, get_previous_hash st1.ledger (dbKey p) = some (hf p.2.content)) ∧
      (∀ n, n ∉ l.map dbKey →
        get_previous_hash st1.ledger n = get_previous_hash st.ledger n) := by
  induction l with
  | nil =>
    intro st _ _
    exact ⟨st, rfl, by simp, fun n _ => rfl⟩
  | cons p rest ih =>
    intro st hok hnd
    have hokp : DbEnv.allOk p.2 := hok p (by simp)
    have hokr : ∀ q ∈ rest, DbEnv.allOk q.2 := fun q hq => hok q (by simp [hq])
    rw [List.map_cons, List.nodup_cons] at hnd
    obtain ⟨hkey, hnd2⟩ := hnd
    by_cases hc : some (hf p.2.content) = get_previous_hash st.ledger (dbKey p)
    · have hstep := dbStep_skip hf p.1 p.2 st hokp hc
      obtain ⟨st1, hrun, hall, hframe⟩ := ih
        { st with disk := (st.disk ++ [dumpNameOf p.1]).erase (dumpNameOf p.1),
                  trace := st.trace ++ [(p.1.db, Outcome.skippedUnchanged)] }
        hokr hnd2
      refine ⟨st1, ?_, ?_, ?_⟩
      · simp [backup_databases, hstep, hrun]
      · intro q hq
        rcases List.mem_cons.mp hq with hq1 | hq2
        · subst hq1
          rw [hframe (dbKey q) hkey]
          exact hc.symm
        · exact hall q hq2
      · intro n hn
        rw [List.map_cons, List.mem_cons] at hn
        push_neg at hn
        obtain ⟨_, hn2⟩ := hn
        rw [hframe n hn2]
    · have hstep := dbStep_upload hf p.1 p.2 st hokp hc
      obtain ⟨st1, hrun, hall, hframe⟩ := ih
        { st with disk := (st.disk ++ [dumpNameOf p.1]).erase (dumpNameOf p.1),
                  ledger := update_hash st.ledger p.1.db (hf p.2.content),
                  uploads := st.uploads ++ [dumpNameOf p.1],
                  trace := st.trace ++ [(p.1.db, Outcome.uploaded)] }
        hokr hnd2
      refine ⟨st1, ?_, ?_, ?_⟩
      · simp [backup_databases, hstep, hrun]
      · intro q hq
        rcases List.mem_cons.mp hq with hq1 | hq2
        · subst hq1
          rw [hframe (dbKey q) hkey]
          exact gph_update_self st.ledger q.1.db (hf q.2.content)
        · exact hall q hq2
      · intro n hn
        rw [List.map_cons, List.mem_cons] at hn
        push_neg at hn
        obtain ⟨hn1, hn2⟩ := hn
        rw [hframe n hn2]
        exact gph_update_other st.ledger p.1.db n (hf p.2.content) hn1

lemma backup_databases_rerun (hf : Bytes → Hash) (l : List (DbSpec × DbEnv)) :
    ∀ st : St, (∀ p ∈ l, DbEnv.allOk p.2) →
    (∀ p ∈ l, get_previous_hash st.ledger (dbKey p) = some (hf p.2.content)) →
    ∃ st2, backup_databases hf l st = RunRes.ok st2 ∧
      st2.ledger = st.ledger ∧ st2.uploads = st.uploads ∧
      st2.trace = st.trace ++ l.map (fun p => (dbKey p, Outcome.skippedUnchanged)) := by
  induction l with
  | nil =>
    intro st _ _
    exact ⟨st, rfl, rfl, rfl, by simp⟩
  | cons p rest ih =>
    intro st hok hprev
    have hstep := dbStep_skip hf p.1 p.2 st (hok p (by simp)) (hprev p (by simp)).symm
    obtain ⟨st2, hrun, hl, hu, ht⟩ := ih
      { st with disk := (st.disk ++ [dumpNameOf p.1]).erase (dumpNameOf p.1),
                trace := st.trace ++ [(p.1.db, Outcome.skippedUnchanged)] }
      (fun q hq => hok q (by simp [hq]))
      (fun q hq => hprev q (by simp [hq]))
    refine ⟨st2, ?_, hl, hu, ?_⟩
    · simp [backup_databases, hstep, hrun]
    · rw [ht]
      simp [dbKey]

def eNoGet : DirEnv := { eOk with getOk := false }

def envC4 : MainEnv :=
  { configOk := true, authOk := true, folderOk := true,
    dirs := [], dbs := [(b1X, fNoDump)], ledger0 := [] }

def envC5 : MainEnv :=
  { configOk := true, authOk := true, folderOk := true,
    dirs := [(dX, eOk)], dbs := [(b1X, fOk)], ledger0 := [] }

/-- C1: the claim states that the local artifact file is deleted on every
exit path of the per-artifact step, including any failure during
fingerprinting, ledger access, or upload. This is false: when the Drive
upload raises, the loop body in backup_directories never reaches the
os.remove call, so the archive web_web.zip stays on disk while the
exception propagates. -/
theorem C1_counterexample :
    dirStep hfTest dX eNoUpload (St.start []) =
      StepRes.raised Err.sinkError
        { disk := ["web_web.zip"], ledger := [], uploads := [], trace := [] } ∧
    (StepRes.state (dirStep hfTest dX eNoUpload (St.start []))).disk ≠ [] :=
  ⟨by decide, by decide⟩

/-- C1 (amended): the local artifact file is deleted before moving to the
next spec only on the paths that complete the loop body, namely upload
success and skip-unchanged (a missing source creates no file); on a
raised failure during fingerprinting, ledger access, or upload the file
remains on disk, and on a caught database dump failure the dump file
created by open also remains. -/
theorem C1_amended_theorem (hf : Bytes → Hash) (d : DirSpec) (e : DirEnv)
    (b : DbSpec) (f : DbEnv) (st : St)
    (hd : zipNameOf d ∉ st.disk) (hb : dumpNameOf b ∉ st.disk) :
    (∀ st1, dirStep hf d e st = StepRes.ok st1 → st1.disk = st.disk) ∧
    (∀ err st1, dirStep hf d e st = StepRes.raised err st1 →
      e.produceOk = true → zipNameOf d ∈ st1.disk) ∧
    (∀ st1, dbStep hf b f st = StepRes.ok st1 →
      (f.dumpOk = true → st1.disk = st.disk) ∧
      (f.dumpOk = false → dumpNameOf b ∈ st1.disk)) ∧
    (∀ err st1, dbStep hf b f st = StepRes.raised err st1 → dumpNameOf b ∈ st1.disk) := by
  refine ⟨?_, ?_, ?_, ?_⟩
  · intro st1 h
    unfold dirStep at h
    split_ifs at h
    all_goals
      first
        | exact StepRes.noConfusion h
        | (injection h with h1; subst h1; rfl)
        | (injection h with h1; subst h1;
           exact erase_append_singleton st.disk (zipNameOf d) hd)
  · intro err st1 h hp
    unfold dirStep at h
    split_ifs at h
    all_goals
      first
        | exact StepRes.noConfusion h
        | (injection h with h1 h2; subst h2; simp)
        | simp_all
  · intro st1 h
    unfold dbStep at h
    split_ifs at h
    all_goals
      first
        | exact StepRes.noConfusion h
        | (injection h with h1; subst h1;
           exact ⟨fun hT => erase_append_singleton st.disk (dumpNameOf b) hb,
                  fun hF => absurd hF (by assumption)⟩)
        | (injection h with h1; subst h1;
           exact ⟨fun hT => absurd hT (by simp_all), fun hF => by simp⟩)
  · intro err st1 h
    unfold dbStep at h
    split_ifs at h
    all_goals
      first
        | exact StepRes.noConfusion h
        | (injection h with h1 h2; subst h2; simp)

theorem C1_witness :
    ({ disk := [], ledger := [("web_web", "6")], uploads := ["web_web.zip"],
       trace := [("web_web", Outcome.uploaded)] } : St).disk = (St.start []).disk := by
  exact (C1_amended_theorem hfTest dX eOk b1X fOk (St.start []) (by decide) (by decide)).1
    { disk := [], ledger := [("web_web", "6")], uploads := ["web_web.zip"],
      trace := [("web_web", Outcome.uploaded)] }
    (by decide)

/-- C2: the claim states that any failure while processing one spec
(production, fingerprinting, ledger read, or upload) is caught at the
boundary of that spec and processing continues with the next spec. This
is false: an upload failure on the second of three databases propagates
out of the loop, the third database is never processed (its name appears
nowhere in the trace), and no outcome at all is recorded for the failed
spec. -/
theorem C2_counterexample :
    backup_databases hfTest [(b1X, fOk), (b2X, fNoUpload), (b3X, fOk)] (St.start []) =
      RunRes.raised Err.sinkError
        { disk := ["db2.sql"], ledger := [("db1", "9")], uploads := ["db1.sql"],
          trace := [("db1", Outcome.uploaded)] } ∧
    (RunRes.state (backup_databases hfTest [(b1X, fOk), (b2X, fNoUpload), (b3X, fOk)]
      (St.start []))).trace.length = 1 :=
  ⟨by decide, by decide⟩

/-- C2 (amended): only a database dump failure (mysqldump exiting
non-zero) is caught at the per-spec boundary; fingerprinting, ledger and
upload failures propagate and abort the rest of the run. In particular,
with three database specs where only the second dump fails and the
others succeed end to end, the first and third databases are still fully
processed (each recorded as uploaded or skipped-unchanged) and exactly
one trace entry is recorded as failed. -/
theorem C2_amended_theorem (hf : Bytes → Hash) (b1 b2 b3 : DbSpec)
    (f1 f2 f3 : DbEnv) (L : Ledger)
    (h1 : f1.allOk) (h2 : f2.dumpOk = false) (h3 : f3.allOk) :
    ∃ st o1 o3,
      backup_databases hf [(b1, f1), (b2, f2), (b3, f3)] (St.start L) = RunRes.ok st ∧
      st.trace = [(b1.db, o1), (b2.db, Outcome.failedDump), (b3.db, o3)] ∧
      (o1 = Outcome.uploaded ∨ o1 = Outcome.skippedUnchanged) ∧
      (o3 = Outcome.uploaded ∨ o3 = Outcome.skippedUnchanged) ∧
      countFailed st.trace = 1 := by
  obtain ⟨s1, o1, hs1, ht1, ho1⟩ := dbStep_completes hf b1 f1 (St.start L) h1
  have hs2 : dbStep hf b2 f2 s1 = StepRes.ok
      { s1 with disk := s1.disk ++ [dumpNameOf b2],
                trace := s1.trace ++ [(b2.db, Outcome.failedDump)] } := by
    simp [dbStep, h2]
  obtain ⟨s3, o3, hs3, ht3, ho3⟩ := dbStep_completes hf b3 f3
    { s1 with disk := s1.disk ++ [dumpNameOf b2],
              trace := s1.trace ++ [(b2.db, Outcome.failedDump)] } h3
  have htr : s3.trace = [(b1.db, o1), (b2.db, Outcome.failedDump), (b3.db, o3)] := by
    rw [ht3]
    simp [ht1, St.start]
  refine ⟨s3, o1, o3, ?_, htr, ho1, ho3, ?_⟩
  · simp [backup_databases, hs1, hs2, hs3]
  · rw [htr]
    rcases ho1 with h | h <;> rcases ho3 with h' | h' <;> subst h <;> subst h' <;>
      simp [countFailed]

theorem C2_witness :
    ∃ st o1 o3,
      backup_databases hfTest [(b1X, fOk), (b2X, fNoDump), (b3X, fOk)] (St.start []) =
        RunRes.ok st ∧
      st.trace = [(b1X.db, o1), (b2X.db, Outcome.failedDump), (b3X.db, o3)] ∧
      (o1 = Outcome.uploaded ∨ o1 = Outcome.skippedUnchanged) ∧
      (o3 = Outcome.uploaded ∨ o3 = Outcome.skippedUnchanged) ∧
      countFailed st.trace = 1 :=
  C2_amended_theorem hfTest b1X b2X b3X fOk fNoDump fOk [] (by decide) (by decide) (by decide)

/-- C3: the ledger hash for a logical name is written only on the path
where the upload call has already returned successfully, and on every
failing or skipping exit of the per-artifact step the ledger is exactly
what it was before the step, for both the directory and the database
loop. -/
theorem C3_theorem (hf : Bytes → Hash) (d : DirSpec) (e : DirEnv)
    (b : DbSpec) (f : DbEnv) (st : St) :
    (∀ err st1, dirStep hf d e st = StepRes.raised err st1 → st1.ledger = st.ledger) ∧
    (∀ st1, dirStep hf d e st = StepRes.ok st1 →
      st1.ledger = st.ledger ∨
      (st1.uploads = st.uploads ++ [zipNameOf d] ∧
       st1.ledger = update_hash st.ledger (logicalNameOf d) (hf e.content) ∧
       st1.trace = st.trace ++ [(logicalNameOf d, Outcome.uploaded)])) ∧
    (∀ err st1, dbStep hf b f st = StepRes.raised err st1 → st1.ledger = st.ledger) ∧
    (∀ st1, dbStep hf b f st = StepRes.ok st1 →
      st1.ledger = st.ledger ∨
      (st1.uploads = st.uploads ++ [dumpNameOf b] ∧
       st1.ledger = update_hash st.ledger b.db (hf f.content) ∧
       st1.trace = st.trace ++ [(b.db, Outcome.uploaded)])) := by
  refine ⟨?_, ?_, ?_, ?_⟩
  · intro err st1 h
    unfold dirStep at h
    split_ifs at h
    all_goals
      first
        | exact StepRes.noConfusion h
        | (injection h with h1 h2; subst h2; rfl)
  · intro st1 h
    unfold dirStep at h
    split_ifs at h
    all_goals
      first
        | exact StepRes.noConfusion h
        | (injection h with h1; subst h1; exact Or.inr ⟨rfl, rfl, rfl⟩)
        | (injection h with h1; subst h1; exact Or.inl rfl)
  · intro err st1 h
    unfold dbStep at h
    split_ifs at h
    all_goals
      first
        | exact StepRes.noConfusion h
        | (injection h with h1 h2; subst h2; rfl)
  · intro st1 h
    unfold dbStep at h
    split_ifs at h
    all_goals
      first
        | exact StepRes.noConfusion h
        | (injection h with h1; subst h1; exact Or.inr ⟨rfl, rfl, rfl⟩)
        | (injection h with h1; subst h1; exact Or.inl rfl)

theorem C3_witness :
    ({ disk := ["web_web.zip"], ledger := [("k", "0")], uploads := [],
       trace := [] } : St).ledger = (St.start [("k", "0")]).ledger := by
  exact (C3_theorem hfTest dX eNoUpload b1X fOk (St.start [("k", "0")])).1 Err.sinkError
    { disk := ["web_web.zip"], ledger := [("k", "0")], uploads := [], trace := [] }
    (by decide)

/-- C4: the claim states that the exit code is non-zero if and only if
some artifact failed or a fatal error occurred. This is false: main
wraps its whole body in a bare except that only logs, so a run whose
single database dump fails (an artifact outcome recorded as failed) still
exits with code 0. -/
theorem C4_counterexample :
    runMain hfTest envC4 =
      (0, { disk := ["db1.sql"], ledger := [], uploads := [],
            trace := [("db1", Outcome.failedDump)] }) ∧
    (runMain hfTest envC4).1 = 0 ∧
    countFailed (runMain hfTest envC4).2.trace = 1 :=
  ⟨by decide, by decide, by decide⟩

/-- C4 (amended): the process exit code is non-zero if and only if
loading config.json failed at import time; every error raised inside
main, including per-artifact failures, store unavailability and
authentication failures, is swallowed by the bare except and the process
exits 0. -/
theorem C4_amended_theorem (hf : Bytes → Hash) (env : MainEnv) :
    (runMain hf env).1 ≠ 0 ↔ env.configOk = false := by
  unfold runMain
  split_ifs with h1 h2 h3
  · simp [h1]
  · simp [h1, h2]
  · simp [h1, h3]
  · cases hbd : backup_directories hf env.dirs (St.start env.ledger0) with
    | ok st1 =>
      cases hbd2 : backup_databases hf env.dbs st1 with
      | ok st2 => simp [hbd2, h1]
      | raised e2 st2 => simp [hbd2, h1]
    | raised e1 st1 => simp [h1]

/-- C5: if every produced fingerprint equals the hash already stored for
its logical name, the run records every artifact as skipped-unchanged,
performs no upload and writes nothing to the ledger; consequently, with
all external calls succeeding and pairwise distinct logical names, a
second run on identical source content performs zero uploads, records
only skipped-unchanged outcomes, and leaves the ledger exactly as the
first run left it. -/
theorem C5_theorem (hf : Bytes → Hash) (env : MainEnv)
    (hc : env.configOk = true) (ha : env.authOk = true) (hfo : env.folderOk = true)
    (hd : ∀ p ∈ env.dirs, DirEnv.allOk p.2) (hb : ∀ p ∈ env.dbs, DbEnv.allOk p.2)
    (hn : (env.dirs.map dirKey ++ env.dbs.map dbKey).Nodup) :
    ∃ st1 st2,
      runMain hf env = (0, st1) ∧
      runMain hf { env with ledger0 := st1.ledger } = (0, st2) ∧
      st2.uploads = [] ∧
      st2.ledger = st1.ledger ∧
      st2.trace = env.dirs.map (fun p => (dirKey p, Outcome.skippedUnchanged))
               ++ env.dbs.map (fun p => (dbKey p, Outcome.skippedUnchanged)) := by
  rw [List.nodup_append] at hn
  obtain ⟨hn1, hn2, hdisj⟩ := hn
  obtain ⟨stA, hrunA, hallA, hframeA⟩ :=
    backup_directories_establish hf env.dirs (St.start env.ledger0) hd hn1
  obtain ⟨st1, hrunB, hallB, hframeB⟩ :=
    backup_databases_establish hf env.dbs stA hb hn2
  have hdirs1 : ∀ p ∈ env.dirs,
      get_previous_hash st1.ledger (dirKey p) = some (hf p.2.content) := by
    intro p hp
    rw [hframeB (dirKey p) (fun hmem => hdisj (List.mem_map_of_mem dirKey hp) hmem)]
    exact hallA p hp
  obtain ⟨stB, hrun2A, hl2A, hu2A, ht2A⟩ :=
    backup_directories_rerun hf env.dirs (St.start st1.ledger) hd hdirs1
  have hdbsB : ∀ p ∈ env.dbs,
      get_previous_hash stB.ledger (dbKey p) = some (hf p.2.content) := by
    intro p hp
    rw [hl2A]
    exact hallB p hp
  obtain ⟨st2, hrun2B, hl2B, hu2B, ht2B⟩ :=
    backup_databases_rerun hf env.dbs stB hb hdbsB
  refine ⟨st1, st2, ?_, ?_, ?_, ?_, ?_⟩
  · simp [runMain, hc, ha, hfo, hrunA, hrunB]
  · simp [runMain, hc, ha, hfo, hrun2A, hrun2B]
  · rw [hu2B, hu2A]
    rfl
  · rw [hl2B, hl2A]
    rfl
  · rw [ht2B, ht2A]
    simp [St.start]

theorem C5_witness :
    ∃ st1 st2,
      runMain hfTest envC5 = (0, st1) ∧
      runMain hfTest { envC5 with ledger0 := st1.ledger } = (0, st2) ∧
      st2.uploads = [] ∧
      st2.ledger = st1.ledger ∧
      st2.trace = envC5.dirs.map (fun p => (dirKey p, Outcome.skippedUnchanged))
               ++ envC5.dbs.map (fun p => (dbKey p, Outcome.skippedUnchanged)) :=
  C5_theorem hfTest envC5 (by decide) (by decide) (by decide) (by decide) (by decide)
    (by decide)

/-- C6: for a logical name with no row in the ledger, get_previous_hash
returns none rather than failing, the comparison of the step treats the
artifact as changed, and the step uploads it and records the new hash. -/
theorem C6_theorem (hf : Bytes → Hash) (d : DirSpec) (e : DirEnv) (st : St)
    (hok : e.allOk) (habs : logicalNameOf d ∉ st.ledger.map Prod.fst) :
    get_previous_hash st.ledger (logicalNameOf d) = none ∧
    dirStep hf d e st = StepRes.ok
      { st with disk := (st.disk ++ [zipNameOf d]).erase (zipNameOf d),
                ledger := update_hash st.ledger (logicalNameOf d) (hf e.content),
                uploads := st.uploads ++ [zipNameOf d],
                trace := st.trace ++ [(logicalNameOf d, Outcome.uploaded)] } := by
  have hnone := gph_none_of_not_mem st.ledger (logicalNameOf d) habs
  refine ⟨hnone, dirStep_upload hf d e st hok ?_⟩
  rw [hnone]
  simp

theorem C6_witness :
    get_previous_hash (St.start [("other", "1")]).ledger (logicalNameOf dX) = none ∧
    dirStep hfTest dX eOk (St.start [("other", "1")]) = StepRes.ok
      { St.start [("other", "1")] with
        disk := ((St.start [("other", "1")]).disk ++ [zipNameOf dX]).erase (zipNameOf dX),
        ledger := update_hash (St.start [("other", "1")]).ledger (logicalNameOf dX)
          (hfTest eOk.content),
        uploads := (St.start [("other", "1")]).uploads ++ [zipNameOf dX],
        trace := (St.start [("other", "1")]).trace ++ [(logicalNameOf dX, Outcome.uploaded)] } :=
  C6_theorem hfTest dX eOk (St.start [("other", "1")]) (by decide) (by decide)

/-- C7: when the ledger is unreachable at the get_previous_hash call, the
exception propagates out of the backup loop and ends the processing of
the whole run: the failing artifact is neither uploaded nor recorded as
skipped, the ledger is untouched, and no later spec of either loop is
processed. Stated for a failing directory spec followed by arbitrary
remaining specs, and for a failing database spec likewise. -/
theorem C7_theorem (hf : Bytes → Hash) (d : DirSpec) (e : DirEnv)
    (restD : List (DirSpec × DirEnv)) (dbs : List (DbSpec × DbEnv))
    (b : DbSpec) (f : DbEnv) (restB : List (DbSpec × DbEnv)) (L : Ledger)
    (h1 : e.isdir = true) (h2 : e.produceOk = true) (h3 : e.hashOk = true)
    (h4 : e.getOk = false)
    (g1 : f.dumpOk = true) (g2 : f.hashOk = true) (g3 : f.getOk = false) :
    runMain hf { configOk := true, authOk := true, folderOk := true,
                 dirs := (d, e) :: restD, dbs := dbs, ledger0 := L } =
      (0, { disk := [zipNameOf d], ledger := L, uploads := [], trace := [] }) ∧
    runMain hf { configOk := true, authOk := true, folderOk := true,
                 dirs := [], dbs := (b, f) :: restB, ledger0 := L } =
      (0, { disk := [dumpNameOf b], ledger := L, uploads := [], trace := [] }) := by
  constructor
  · have hstep : dirStep hf d e { disk := [], ledger := L, uploads := [], trace := [] } =
        StepRes.raised Err.storeUnavailable
          { disk := [zipNameOf d], ledger := L, uploads := [], trace := [] } := by
      simp [dirStep, h1, h2, h3, h4]
    simp [runMain, backup_directories, hstep, St.start]
  · have hstep : dbStep hf b f { disk := [], ledger := L, uploads := [], trace := [] } =
        StepRes.raised Err.storeUnavailable
          { disk := [dumpNameOf b], ledger := L, uploads := [], trace := [] } := by
      simp [dbStep, g1, g2, g3]
    simp [runMain, backup_directories, backup_databases, hstep, St.start]

theorem C7_witness :
    runMain hfTest { configOk := true, authOk := true, folderOk := true,
                     dirs := [(dX, eNoGet)], dbs := [(b1X, fOk)], ledger0 := [] } =
      (0, { disk := [zipNameOf dX], ledger := [], uploads := [], trace := [] }) ∧
    runMain hfTest { configOk := true, authOk := true, folderOk := true,
                     dirs := [], dbs := [(b1X, fNoGet)], ledger0 := [] } =
      (0, { disk := [dumpNameOf b1X], ledger := [], uploads := [], trace := [] }) :=
  C7_theorem hfTest dX eNoGet [] [(b1X, fOk)] b1X fNoGet [] []
    (by decide) (by decide) (by decide) (by decide) (by decide) (by decide) (by decide)

/-- C8: compute_hash folds the fixed-size 8192-byte chunks of the file
bytes through the streaming hash, so for any streaming hash the digest
is a function of the byte content alone: two files with identical
content get identical fingerprints whatever their names and modification
times are. -/
theorem C8_theorem {σ : Type} (H : Hasher σ) (f1 f2 : File)
    (hc : f1.content = f2.content) :
    compute_hash H f1 = compute_hash H f2 ∧
    compute_hash H f1 = H.digest ((chunksOf8192 f1.content).foldl H.update H.init) := by
  constructor
  · unfold compute_hash
    rw [hc]
  · rfl

def sumHasher : Hasher Nat :=
  { init := 0,
    update := fun s c => s + c.foldl (fun a b => a + b) 0,
    digest := fun s => Nat.repr s }

def fileA : File := { name := "a.zip", mtime := 11, content := [1, 2, 3] }

def fileB : File := { name := "b.sql", mtime := 99, content := [1, 2, 3] }

theorem C8_witness :
    fileA.content = fileB.content ∧
    compute_hash sumHasher fileA = compute_hash sumHasher fileB ∧
    compute_hash sumHasher fileA =
      sumHasher.digest ((chunksOf8192 fileA.content).foldl sumHasher.update sumHasher.init) :=
  ⟨rfl, (C8_theorem sumHasher fileA fileB rfl).1, (C8_theorem sumHasher fileA fileB rfl).2⟩

/-- C9: upload_to_drive first queries the container for a non-trashed
object with the same filename; if the query finds one, it updates the
content of that object in place, returning its existing id, preserving
the list of remote ids (so no duplicate is created) and allocating no
fresh id; only if the query comes back empty does it create a new object
with a fresh id. -/
theorem C9_theorem (dv : Drive) (localPath folderId : String) (c : Bytes) :
    (∀ g rest, driveQuery dv (basename localPath) folderId = g :: rest →
      (upload_to_drive localPath folderId c dv).1 = g.id ∧
      (upload_to_drive localPath folderId c dv).2.files =
        dv.files.map (fun x => if x.id == g.id then { x with content := c } else x) ∧
      (upload_to_drive localPath folderId c dv).2.files.map DriveFile.id =
        dv.files.map DriveFile.id ∧
      (upload_to_drive localPath folderId c dv).2.nextId = dv.nextId) ∧
    (driveQuery dv (basename localPath) folderId = [] →
      (upload_to_drive localPath folderId c dv).1 = dv.nextId ∧
      (upload_to_drive localPath folderId c dv).2.files =
        dv.files ++ [{ id := dv.nextId, name := basename localPath, parent := folderId,
                       content := c, trashed := false }] ∧
      (upload_to_drive localPath folderId c dv).2.nextId = dv.nextId + 1) := by
  constructor
  · intro g rest hq
    have hu : upload_to_drive localPath folderId c dv =
        (g.id, { dv with files := dv.files.map (fun x => if x.id == g.id then { x with content := c } else x) }) := by
      unfold upload_to_drive
      rw [hq]
    rw [hu]
    refine ⟨rfl, rfl, ?_, rfl⟩
    induction dv.files with
    | nil => rfl
    | cons x xs ih =>
      simp only [List.map_cons, List.cons.injEq]
      exact ⟨by split <;> rfl, ih⟩
  · intro hq
    have hu : upload_to_drive localPath folderId c dv =
        (dv.nextId,
          { files := dv.files ++
              [{ id := dv.nextId, name := basename localPath, parent := folderId,
                 content := c, trashed := false }],
            nextId := dv.nextId + 1 }) := by
      unfold upload_to_drive
      rw [hq]
    rw [hu]
    exact ⟨rfl, rfl, rfl⟩

def gX : DriveFile :=
  { id := 7, name := "web_web.zip", parent := "folder", content := [0], trashed := false }

def driveX : Drive := { files := [gX], nextId := 8 }

theorem C9_witness :
    (upload_to_drive "web_web.zip" "folder" [9, 9] driveX).1 = gX.id ∧
    (upload_to_drive "web_web.zip" "folder" [9, 9] driveX).2.files =
      driveX.files.map (fun x => if x.id == gX.id then { x with content := [9, 9] } else x) ∧
    (upload_to_drive "web_web.zip" "folder" [9, 9] driveX).2.files.map DriveFile.id =
      driveX.files.map DriveFile.id ∧
    (upload_to_drive "web_web.zip" "folder" [9, 9] driveX).2.nextId = driveX.nextId :=
  (C9_theorem driveX "web_web.zip" "folder" [9, 9]).1 gX [] (by decide)

/-- C10: reading a previous hash is a pure lookup that leaves the ledger
as it is — after a step whose ledger interaction is only the read on the
skip-unchanged path, the ledger equals its pre-step value — and
update_hash changes exactly the row keyed by the given name: the stored
hash for that name becomes the new one, the lookup of any other name is
unchanged, and the rows whose key differs from the name are preserved
verbatim. -/
theorem C10_theorem (t : Ledger) (n m : String) (h : Hash) (hmn : m ≠ n) :
    get_previous_hash (update_hash t n h) n = some h ∧
    get_previous_hash (update_hash t n h) m = get_previous_hash t m ∧
    (update_hash t n h).filter (fun p => p.fst != n) = t.filter (fun p => p.fst != n) ∧
    (∀ (hf : Bytes → Hash) (d : DirSpec) (e : DirEnv) (st : St), e.allOk →
      some (hf e.content) = get_previous_hash st.ledger (logicalNameOf d) →
      (StepRes.state (dirStep hf d e st)).ledger = st.ledger) := by
  refine ⟨gph_update_self t n h, gph_update_other t n m h hmn,
    update_hash_filter_frame t n h, ?_⟩
  intro hf d e st hok heq
  rw [dirStep_skip hf d e st hok heq]
  rfl

theorem C10_witness :
    get_previous_hash (update_hash [("a", "1"), ("b", "2")] "a" "9") "a" = some "9" ∧
    get_previous_hash (update_hash [("a", "1"), ("b", "2")] "a" "9") "b" =
      get_previous_hash [("a", "1"), ("b", "2")] "b" ∧
    (update_hash [("a", "1"), ("b", "2")] "a" "9").filter (fun p => p.fst != "a") =
      ([("a", "1"), ("b", "2")] : Ledger).filter (fun p => p.fst != "a") ∧
    (StepRes.state (dirStep hfTest dX eOk (St.start [("web_web", "6")]))).ledger =
      (St.start [("web_web", "6")]).ledger := by
  have h := C10_theorem [("a", "1"), ("b", "2")] "a" "b" "9" (by decide)
  exact ⟨h.1, h.2.1, h.2.2.1,
    h.2.2.2 hfTest dX eOk (St.start [("web_web", "6")]) (by decide) (by decide)⟩
